import Mathlib

/-!
Shallow embedding of the mutation-testing engine core.

Part A embeds the C++ junk detector (CXXJunkDetector.cpp): the clang-side
location/range arithmetic, the search visitor, and the isJunk dispatch.
Part B embeds the pipeline driver (Driver.cpp) together with the slice of
TestResult.h it is documented to produce.

Clang (source manager, AST traversal) is an external service: it is modelled
by the data the detector reads from it — file offsets and file ids of
locations, the candidate operator nodes in traversal order, and the
(file, line, column) to location translation.
-/

namespace mull

/-- Modelled from the spec: a Source Location is either null (IR lacks debug
metadata) or a (path, line, column) triple.  mull::SourceLocation itself is
not among the given sources; CXXJunkDetector.cpp only reads isNull(),
filePath, line and column. -/
inductive SourceLocation where
  | null : SourceLocation
  | loc (filePath : String) (line : Nat) (column : Nat) : SourceLocation
deriving DecidableEq

/-- mull::SourceLocation::isNull. -/
def SourceLocation.isNull : SourceLocation → Bool
  | .null => true
  | .loc _ _ _ => false

/-- The mutator kinds CXXJunkDetector::isJunk dispatches on; every other
kind falls into the default branch of its switch. -/
inductive MutatorKind where
  | ConditionalsBoundaryMutator
  | MathAddMutator
  | MathSubMutator
  | otherMutator (n : Nat)
deriving DecidableEq

/-- A clang source location as CXXJunkDetector.cpp observes it: validity
(SourceLocation::isValid), whether it is a file location
(SourceLocation::isFileID), its file (FullSourceLoc::getFileID) and its
offset in that file (SourceManager::getFileOffset). -/
structure CLoc where
  valid : Bool
  isFileID : Bool
  fileID : Nat
  offset : Nat
deriving DecidableEq

/-- A clang::SourceRange: begin and end locations. -/
structure CRange where
  rangeBegin : CLoc
  rangeEnd : CLoc
deriving DecidableEq

/-- clang::SourceRange::isValid: both ends are valid. -/
def CRange.isValid (r : CRange) : Bool :=
  r.rangeBegin.valid && r.rangeEnd.valid

/-- The default-constructed (invalid) clang::SourceRange that
SearchInstructionVisitor holds before any match is recorded. -/
def invalidRange : CRange :=
  ⟨⟨false, false, 0, 0⟩, ⟨false, false, 0, 0⟩⟩

/-- locationInRange (CXXJunkDetector.cpp): true iff the location is a file
location, lies in the same file as the range begin, and its file offset is
between the begin and end offsets inclusive.  The asserts in the source
(mutant location valid, range begin valid) hold on every input the program
reaches this code with; theorems carry them as hypotheses where they are
load-bearing. -/
def locationInRange (range : CRange) (location : CLoc) : Bool :=
  if location.isFileID then
    let sameSourceFile := location.fileID == range.rangeBegin.fileID
    let inRange := decide (range.rangeBegin.offset ≤ location.offset) &&
      decide (location.offset ≤ range.rangeEnd.offset)
    sameSourceFile && inRange
  else
    false

/-- The length computation of smallestSourceRange: end file offset minus
begin file offset, in the 32-bit unsigned arithmetic of clang file offsets. -/
def rangeLength (r : CRange) : Nat :=
  (r.rangeEnd.offset + 2 ^ 32 - r.rangeBegin.offset) % 2 ^ 32

/-- smallestSourceRange (CXXJunkDetector.cpp): an invalid argument loses,
otherwise the shorter range wins and ties go to the first argument. -/
def smallestSourceRange (first second : CRange) : CRange :=
  if !first.isValid then second
  else if !second.isValid then first
  else if rangeLength first < rangeLength second then first
  else if rangeLength second < rangeLength first then second
  else first

/-- SearchInstructionVisitor::visitRangeWithLocation: when the offered range
contains the mutant location, keep the smaller of the accumulated range and
the offered one. -/
def visitRangeWithLocation (location : CLoc) (sourceRange : CRange)
    (range : CRange) : CRange :=
  if locationInRange range location then smallestSourceRange sourceRange range
  else sourceRange

/-- A SearchInstructionVisitor fed the candidate ranges in traversal order,
starting from the default invalid range. -/
def searchRanges (location : CLoc) (ranges : List CRange) : CRange :=
  List.foldl (visitRangeWithLocation location) invalidRange ranges

/-- SearchInstructionVisitor::foundRange: a match was recorded iff the
accumulated range is valid. -/
def foundRange (location : CLoc) (ranges : List CRange) : Bool :=
  (searchRanges location ranges).isValid

/-- The AST constructs the three operator-specific visitors react to; every
other node is ignored by their Visit callbacks. -/
inductive CXXNodeKind where
  | relationalOp
  | addOp
  | addAssignOp
  | subOp
  | subAssignOp
  | incrementOp
  | decrementOp
  | otherNode (n : Nat)
deriving DecidableEq

/-- One node of the traversed AST: its kind and its clang source range. -/
structure CXXNode where
  kind : CXXNodeKind
  range : CRange
deriving DecidableEq

/-- ConditionalsBoundaryVisitor::VisitBinaryOperator: only relational binary
operators are offered to the search visitor. -/
def cbStep (location : CLoc) (acc : CRange) (n : CXXNode) : CRange :=
  if n.kind == .relationalOp then visitRangeWithLocation location acc n.range
  else acc

/-- ConditionalsBoundaryVisitor::foundMutant after a full traversal. -/
def cbFoundMutant (location : CLoc) (nodes : List CXXNode) : Bool :=
  (List.foldl (cbStep location) invalidRange nodes).isValid

/-- MathAddVisitor: BO_Add and BO_AddAssign binary operators and increment
unary operators are offered to the search visitor. -/
def mathAddStep (location : CLoc) (acc : CRange) (n : CXXNode) : CRange :=
  if n.kind == .addOp || n.kind == .addAssignOp || n.kind == .incrementOp then
    visitRangeWithLocation location acc n.range
  else acc

/-- MathAddVisitor::foundMutant after a full traversal. -/
def mathAddFoundMutant (location : CLoc) (nodes : List CXXNode) : Bool :=
  (List.foldl (mathAddStep location) invalidRange nodes).isValid

/-- MathSubVisitor: BO_Sub and BO_SubAssign binary operators and decrement
unary operators are offered to the search visitor. -/
def mathSubStep (location : CLoc) (acc : CRange) (n : CXXNode) : CRange :=
  if n.kind == .subOp || n.kind == .subAssignOp || n.kind == .decrementOp then
    visitRangeWithLocation location acc n.range
  else acc

/-- MathSubVisitor::foundMutant after a full traversal. -/
def mathSubFoundMutant (location : CLoc) (nodes : List CXXNode) : Bool :=
  (List.foldl (mathSubStep location) invalidRange nodes).isValid

/-- The slice of a loaded clang::ASTUnit that CXXJunkDetector reads: the
file entry names known to its SourceManager in fileinfo iteration order, the
operator nodes its RecursiveASTVisitors traverse in traversal order, and
ASTUnit::getLocation translating (file entry, line, column) to a location. -/
structure ASTUnitModel where
  files : List String
  nodes : List CXXNode
  getLocation : String → Nat → Nat → CLoc

/-- The slice of a mull::MutationPoint the junk detector reads: its mutator
kind, its source location, whether its original value is an llvm::Instruction
(the dyn_cast in findAST), and the source file name of that instruction's
module. -/
structure MutationPoint where
  mutatorKind : MutatorKind
  sourceLocation : SourceLocation
  originalValueIsInstruction : Bool
  moduleSourceFileName : String

/-- CXXJunkDetector::findAST: null when the original value is not an
instruction; otherwise the AST loaded for the module's source file name.
astLoader stands for clang::ASTUnit::LoadFromCommandLine with the computed
command line (none for a failed parse); the per-path cache and its mutex are
ephemeral state that does not change the value returned for a point. -/
def findAST (astLoader : String → Option ASTUnitModel)
    (point : MutationPoint) : Option ASTUnitModel :=
  if point.originalValueIsInstruction then astLoader point.moduleSourceFileName
  else none

/-- CXXJunkDetector::findFileEntry: scan the SourceManager file entries and
return the first whose name equals the given file path, if any. -/
def findFileEntry (ast : ASTUnitModel) (filePath : String) : Option String :=
  ast.files.find? (fun name => name == filePath)

/-- CXXJunkDetector::isJunkBoundaryConditional.  The value none models an
assertion failure — assert(ast) inside findFileEntry when findAST produced
null, assert(file) when no file entry matches, assert(location.isValid())
when the translated location is invalid — where the program aborts and
produces no junk verdict. -/
def isJunkBoundaryConditional (astLoader : String → Option ASTUnitModel)
    (point : MutationPoint) (filePath : String) (line column : Nat) :
    Option Bool :=
  match findAST astLoader point with
  | none => none
  | some ast =>
    match findFileEntry ast filePath with
    | none => none
    | some file =>
      let location := ast.getLocation file line column
      if location.valid then some (!(cbFoundMutant location ast.nodes))
      else none

/-- CXXJunkDetector::isJunkMathAdd; none models an assertion failure as in
isJunkBoundaryConditional. -/
def isJunkMathAdd (astLoader : String → Option ASTUnitModel)
    (point : MutationPoint) (filePath : String) (line column : Nat) :
    Option Bool :=
  match findAST astLoader point with
  | none => none
  | some ast =>
    match findFileEntry ast filePath with
    | none => none
    | some file =>
      let location := ast.getLocation file line column
      if location.valid then some (!(mathAddFoundMutant location ast.nodes))
      else none

/-- CXXJunkDetector::isJunkMathSub; none models an assertion failure as in
isJunkBoundaryConditional. -/
def isJunkMathSub (astLoader : String → Option ASTUnitModel)
    (point : MutationPoint) (filePath : String) (line column : Nat) :
    Option Bool :=
  match findAST astLoader point with
  | none => none
  | some ast =>
    match findFileEntry ast filePath with
    | none => none
    | some file =>
      let location := ast.getLocation file line column
      if location.valid then some (!(mathSubFoundMutant location ast.nodes))
      else none

/-- CXXJunkDetector::isJunk: a null source location is junk outright;
otherwise dispatch on the mutator kind, defaulting to not-junk.  some true
means discard, some false means keep, none means the detector aborted on an
assertion while handling the point. -/
def isJunk (astLoader : String → Option ASTUnitModel)
    (point : MutationPoint) : Option Bool :=
  match point.sourceLocation with
  | .null => some true
  | .loc filePath line column =>
    match point.mutatorKind with
    | .ConditionalsBoundaryMutator =>
      isJunkBoundaryConditional astLoader point filePath line column
    | .MathAddMutator => isJunkMathAdd astLoader point filePath line column
    | .MathSubMutator => isJunkMathSub astLoader point filePath line column
    | .otherMutator _ => some false

end mull

namespace Mutang

/-- Modelled from the spec: the Compiler "produces a freshly owned native
object representing exactly the current IR of the module" (Compiler.cpp is
not among the given sources; Driver.cpp only calls CompilerModule).  An
object is therefore the pair of the module it was compiled from and the IR
snapshot it embodies; IR is kept abstract as a type parameter. -/
structure ObjectFile (IR : Type) where
  moduleId : Nat
  code : IR
deriving DecidableEq

/-- Compiler::CompilerModule applied to a module under the current per-module
IR state. -/
def compile {IR : Type} (irs : Nat → IR) (m : Nat) : ObjectFile IR :=
  ⟨m, irs m⟩

/-- Modelled from the spec: a Mutation Point is "a fully specified,
reversible pending edit" with apply() and revert() acting on its module's IR
(MutationPoint sources are not given; Driver.cpp only calls applyMutation and
revertMutation).  The id field stands for the identity of the underlying
heap object. -/
structure MutationPoint (IR : Type) where
  id : Nat
  moduleId : Nat
  applyMutation : IR → IR
  revertMutation : IR → IR

/-- A testee as Driver::Run consumes it: its parent module handle and the
mutation points findMutationPoints yields for it, in order (the Test Finder
is an external collaborator here; its outputs are inputs of the driver). -/
structure Testee (IR : Type) where
  parent : Nat
  points : List (MutationPoint IR)

/-- A test as Driver::Run consumes it: its identity and the testees
findTestees yields for it, in order. -/
structure Test (IR : Type) where
  id : Nat
  testees : List (Testee IR)

/-- ExecutionStatus (TestResult.h). -/
inductive ExecutionStatus where
  | Invalid
  | Failed
  | Passed
deriving DecidableEq

/-- ExecutionResult (TestResult.h). -/
structure ExecutionResult where
  Status : ExecutionStatus
  RunningTime : Int
deriving DecidableEq

/-- The shape of a TestResult (TestResult.h): the execution result of the
test without any mutations applied, the test it belongs to, and how many
mutation results were recorded for it. -/
structure TestResultRec where
  originalTestResult : ExecutionResult
  testId : Nat
  mutationResultCount : Nat
deriving DecidableEq

/-- The observable actions Driver::Run performs, in program order: an
applyMutation, a compilation of a mutant, a revertMutation, or a
SimpleTestRunner::runTest invocation with its object set. -/
inductive Event (IR : Type) where
  | applyEvent (pointId : Nat) (moduleId : Nat)
  | compileEvent (obj : ObjectFile IR)
  | revertEvent (pointId : Nat) (moduleId : Nat)
  | runEvent (testId : Nat) (objects : List (ObjectFile IR))
deriving DecidableEq

/-- Pointwise update of the per-module IR state. -/
def setIR {IR : Type} (irs : Nat → IR) (m : Nat) (v : IR) : Nat → IR :=
  fun x => if x = m then v else irs x

/-- Driver::AllButOne: every cached baseline object whose module differs from
the given one, in cache iteration order. -/
def allButOne {IR : Type} (cache : List (Nat × ObjectFile IR)) (one : Nat) :
    List (ObjectFile IR) :=
  (cache.filter (fun e => one != e.1)).map (fun e => e.2)

/-- The mutable state threaded through the innermost loop of Driver::Run:
the per-module IR, the ObjectFiles vector, and the trace of actions so far. -/
structure LoopState (IR : Type) where
  irs : Nat → IR
  objectFiles : List (ObjectFile IR)
  trace : List (Event IR)

/-- One iteration of the innermost loop of Driver::Run: applyMutation,
compile the testee's parent module, push_back the mutant onto ObjectFiles,
revertMutation, then runTest with the accumulated ObjectFiles.  Note that
ObjectFiles is not restored afterwards: the mutant stays in the vector for
the following iterations. -/
def runPoint {IR : Type} (testId parent : Nat) (s : LoopState IR)
    (p : MutationPoint IR) : LoopState IR :=
  let irs1 := setIR s.irs p.moduleId (p.applyMutation (s.irs p.moduleId))
  let mutant := compile irs1 parent
  let objectFiles1 := s.objectFiles ++ [mutant]
  let irs2 := setIR irs1 p.moduleId (p.revertMutation (irs1 p.moduleId))
  ⟨irs2, objectFiles1,
    s.trace ++ [Event.applyEvent p.id p.moduleId, Event.compileEvent mutant,
      Event.revertEvent p.id p.moduleId, Event.runEvent testId objectFiles1]⟩

/-- The per-testee loop body of Driver::Run: compute AllButOne of the
testee's parent once, then iterate the testee's mutation points. -/
def runTestee {IR : Type} (cache : List (Nat × ObjectFile IR))
    (testId : Nat) (irs : Nat → IR) (trace : List (Event IR))
    (testee : Testee IR) : (Nat → IR) × List (Event IR) :=
  let objectFiles := allButOne cache testee.parent
  let final := List.foldl (runPoint testId testee.parent)
    ⟨irs, objectFiles, trace⟩ testee.points
  (final.irs, final.trace)

/-- The per-test loop body of Driver::Run: iterate the testees of one test. -/
def runOneTest {IR : Type} (cache : List (Nat × ObjectFile IR))
    (s : (Nat → IR) × List (Event IR)) (t : Test IR) :
    (Nat → IR) × List (Event IR) :=
  List.foldl (fun s2 e => runTestee cache t.id s2.1 s2.2 e) s t.testees

/-- The module-loading loop of Driver::Run: load every bitcode path in
configuration order; none models the assert on a failed load aborting the
run.  The loader is the injectable ModuleLoader::loadModuleAtPath. -/
def loadModules {IR : Type} (loader : Nat → Option IR) :
    List Nat → Option (List (Nat × IR))
  | [] => some []
  | p :: ps =>
    match loader p with
    | none => none
    | some ir => (loadModules loader ps).map (fun rest => (p, ir) :: rest)

/-- The inputs Driver::Run consumes from its collaborators: a default IR
value (so that the per-module state is total), the configured bitcode paths
(module handles), the module loader, and the tests the Test Finder reports
over the loaded context together with their testees and mutation points. -/
structure RunInput (IR : Type) where
  defaultIR : IR
  bitcodePaths : List Nat
  loader : Nat → Option IR
  tests : List (Test IR)

/-- What a completed Driver::Run leaves behind: the final per-module IR
state, the InnerCache of baseline objects, the Test Results it constructed,
and the trace of its actions.  Driver::Run returns void and never constructs
a TestResult, so the collection of Test Results it produces is empty. -/
structure RunResult (IR : Type) where
  irs : Nat → IR
  cache : List (Nat × ObjectFile IR)
  testResults : List TestResultRec
  trace : List (Event IR)

/-- Driver::Run: load and baseline-compile every module into InnerCache,
then iterate tests, testees and mutation points.  none models the load
assert firing. -/
def mutangRun {IR : Type} (input : RunInput IR) : Option (RunResult IR) :=
  match loadModules input.loader input.bitcodePaths with
  | none => none
  | some modules =>
    let irs0 : Nat → IR := fun m => (modules.lookup m).getD input.defaultIR
    let cache := modules.map (fun e => (e.1, compile irs0 e.1))
    let final := List.foldl (runOneTest cache) (irs0, ([] : List (Event IR)))
      input.tests
    some ⟨final.1, cache, [], final.2⟩

/-- Is this event an applyMutation? -/
def isApplyEvent {IR : Type} : Event IR → Bool
  | .applyEvent _ _ => true
  | _ => false

/-- Is this event a runTest invocation? -/
def isRunEvent {IR : Type} : Event IR → Bool
  | .runEvent _ _ => true
  | _ => false

/-- Number of applyMutation actions in a trace. -/
def applyCount {IR : Type} (trace : List (Event IR)) : Nat :=
  (trace.filter (fun e => isApplyEvent e)).length

/-- Number of runTest actions in a trace. -/
def runCount {IR : Type} (trace : List (Event IR)) : Nat :=
  (trace.filter (fun e => isRunEvent e)).length

/-- The identities of the mutation points applied, in trace order. -/
def applyIds {IR : Type} (trace : List (Event IR)) : List Nat :=
  trace.filterMap (fun e => match e with
    | .applyEvent i _ => some i
    | _ => none)

/-- The object sets handed to the runner, in trace order. -/
def runObjectSets {IR : Type} (trace : List (Event IR)) :
    List (List (ObjectFile IR)) :=
  trace.filterMap (fun e => match e with
    | .runEvent _ objs => some objs
    | _ => none)

/-- Total number of mutation points the Test Finder reports over an input. -/
def totalPoints {IR : Type} (input : RunInput IR) : Nat :=
  (input.tests.map (fun t =>
    (t.testees.map (fun e => e.points.length)).sum)).sum

/-- A trace is a sequence of apply/compile/revert/run blocks, each reverting
exactly the point it applied before the next block starts. -/
def blocksOf {IR : Type} : List (Event IR) → Bool
  | [] => true
  | .applyEvent i _ :: .compileEvent _ :: .revertEvent j _ :: .runEvent _ _ :: rest =>
    i == j && blocksOf rest
  | _ => false

end Mutang

namespace mull

/-- The length of a well-formed clang range as the spec reads it: end offset
minus begin offset. -/
def rlen (r : CRange) : Nat := r.rangeEnd.offset - r.rangeBegin.offset

/-- Specification-side selection step: keep the strictly shorter range, the
first one on a tie. -/
def minStep (a b : CRange) : CRange := if rlen b < rlen a then b else a

/-- Specification-side selection: the first-encountered minimum-length range
of a list (invalid when the list is empty).  Used to state what the search
visitor must return. -/
def minFirst : List CRange → CRange
  | [] => invalidRange
  | r :: rs => List.foldl minStep r rs

/-- A mutation point with no debug-info source location. -/
def nullLocPoint : MutationPoint := ⟨.MathAddMutator, .null, true, "main.c"⟩

/-- An AST whose source manager knows only a file entry that does not match
the mutation point's path. -/
def missingFileAST : ASTUnitModel :=
  ⟨["other.c"], [], fun _ _ _ => ⟨true, true, 0, 0⟩⟩

/-- A boundary-conditional point whose path has no matching file entry in
missingFileAST. -/
def missingFilePoint : MutationPoint :=
  ⟨.ConditionalsBoundaryMutator, .loc "main.c" 3 5, true, "main.c"⟩

/-- A concrete file location at offset 5 of file 0. -/
def c7Location : CLoc := ⟨true, true, 0, 5⟩

/-- Three candidate ranges: a long one and a short one containing offset 5,
and one that does not contain it. -/
def c7Ranges : List CRange :=
  [⟨⟨true, true, 0, 0⟩, ⟨true, true, 0, 20⟩⟩,
   ⟨⟨true, true, 0, 4⟩, ⟨true, true, 0, 9⟩⟩,
   ⟨⟨true, true, 0, 30⟩, ⟨true, true, 0, 40⟩⟩]

/-- An AST over one file whose getLocation yields a valid location that is
not a file location (a macro-expansion location). -/
def c10AST : ASTUnitModel :=
  ⟨["main.c"],
   [⟨.addOp, ⟨⟨true, true, 0, 0⟩, ⟨true, true, 0, 9⟩⟩⟩],
   fun _ _ _ => ⟨true, false, 0, 0⟩⟩

/-- A math-add point located in the file of c10AST. -/
def c10Point : MutationPoint := ⟨.MathAddMutator, .loc "main.c" 2 4, true, "main.c"⟩

end mull

namespace Mutang

/-- A mutation point on module 1 that increments its IR; reverting
decrements it. -/
def samplePoint1 : MutationPoint Nat := ⟨1, 1, fun n => n + 1, fun n => n - 1⟩

/-- A second mutation point on module 1 adding two. -/
def samplePoint2 : MutationPoint Nat := ⟨2, 1, fun n => n + 2, fun n => n - 2⟩

/-- A testee in module 1 with the two sample mutation points. -/
def sampleTestee : Testee Nat := ⟨1, [samplePoint1, samplePoint2]⟩

/-- One test (id 0) with the single sample testee. -/
def sampleTest : Test Nat := ⟨0, [sampleTestee]⟩

/-- A loader providing baseline IR 10 for module 0 and 20 for module 1. -/
def sampleLoader : Nat → Option Nat :=
  fun m => if m = 0 then some 10 else if m = 1 then some 20 else none

/-- A concrete driver input: two modules, one test, one testee, two points. -/
def sampleInput : RunInput Nat := ⟨0, [0, 1], sampleLoader, [sampleTest]⟩

/-- A throwaway RunResult used only as the getD default below. -/
def emptyRunResult : RunResult Nat := ⟨fun _ => 0, [], [], []⟩

/-- The completed run of the sample input. -/
def sampleRun : RunResult Nat := (mutangRun sampleInput).getD emptyRunResult

/-- The baseline object set of the sample input: both cached objects. -/
def baselineObjectSet : List (ObjectFile Nat) := [⟨0, 10⟩, ⟨1, 20⟩]

/-- The per-module baseline IR state of the sample input. -/
def sampleIrs : Nat → Nat :=
  fun m => if m = 0 then 10 else if m = 1 then 20 else 0

/-- The baseline object cache of the sample input. -/
def sampleCache : List (Nat × ObjectFile Nat) := [(0, ⟨0, 10⟩), (1, ⟨1, 20⟩)]

end Mutang

/-- C5: for every mutation point whose Source Location is null, isJunk
returns true (discard), regardless of the point's mutator kind. -/
theorem c5_null_location_is_junk (astLoader : String → Option mull.ASTUnitModel)
    (point : mull.MutationPoint) (h : point.sourceLocation = .null) :
    mull.isJunk astLoader point = some true := by
  unfold mull.isJunk
  rw [h]

/-- Witness for C5 at the concrete null-location point. -/
theorem c5_witness :
    mull.nullLocPoint.sourceLocation = .null ∧
      mull.isJunk (fun _ => none) mull.nullLocPoint = some true :=
  ⟨rfl, c5_null_location_is_junk (fun _ => none) mull.nullLocPoint rfl⟩

/-- C6 counterexample: a boundary-conditional point with a non-null location
whose path matches no FileEntry of the loaded AST is not classified junk;
the detector hits assert(file) and produces no verdict at all. -/
theorem c6_counterexample :
    ¬ (mull.isJunk (fun _ => some mull.missingFileAST) mull.missingFilePoint
        = some true) := by
  intro h
  have hnone : mull.isJunk (fun _ => some mull.missingFileAST)
      mull.missingFilePoint = none := rfl
  rw [hnone] at h
  exact Option.noConfusion h

/-- C6 amended: for a point of kind ConditionalsBoundary, MathAdd or MathSub
with a non-null source location, when the loaded AST has no FileEntry whose
name equals the location's path, the junk check fails an assertion and
produces no verdict (modelled none); in particular it does not return true. -/
theorem c6_missing_file_entry_gives_no_verdict
    (astLoader : String → Option mull.ASTUnitModel)
    (point : mull.MutationPoint) (ast : mull.ASTUnitModel)
    (filePath : String) (line column : Nat)
    (hloc : point.sourceLocation = .loc filePath line column)
    (hkind : point.mutatorKind = .ConditionalsBoundaryMutator ∨
      point.mutatorKind = .MathAddMutator ∨
      point.mutatorKind = .MathSubMutator)
    (hast : mull.findAST astLoader point = some ast)
    (hfile : mull.findFileEntry ast filePath = none) :
    mull.isJunk astLoader point = none := by
  unfold mull.isJunk
  rw [hloc]
  rcases hkind with hk | hk | hk <;> rw [hk] <;>
    simp [mull.isJunkBoundaryConditional, mull.isJunkMathAdd,
      mull.isJunkMathSub, hast, hfile]

/-- Witness for the amended C6 at the concrete missing-file input. -/
theorem c6_witness :
    mull.isJunk (fun _ => some mull.missingFileAST) mull.missingFilePoint
      = none :=
  c6_missing_file_entry_gives_no_verdict (fun _ => some mull.missingFileAST)
    mull.missingFilePoint mull.missingFileAST "main.c" 3 5 rfl (Or.inl rfl)
    rfl rfl

/-- A location that is not a file location is contained in no range. -/
theorem locationInRange_of_not_fileID (range : mull.CRange)
    (location : mull.CLoc) (h : location.isFileID = false) :
    mull.locationInRange range location = false := by
  simp [mull.locationInRange, h]

/-- The boundary-conditional traversal records nothing for a non-file
location. -/
theorem cbFold_of_not_fileID (location : mull.CLoc)
    (h : location.isFileID = false) (nodes : List mull.CXXNode) :
    ∀ acc, List.foldl (mull.cbStep location) acc nodes = acc := by
  induction nodes with
  | nil => intro acc; rfl
  | cons n ns ih =>
    intro acc
    rw [List.foldl_cons]
    have hstep : mull.cbStep location acc n = acc := by
      simp [mull.cbStep, mull.visitRangeWithLocation,
        locationInRange_of_not_fileID n.range location h]
    rw [hstep, ih acc]

/-- The math-add traversal records nothing for a non-file location. -/
theorem mathAddFold_of_not_fileID (location : mull.CLoc)
    (h : location.isFileID = false) (nodes : List mull.CXXNode) :
    ∀ acc, List.foldl (mull.mathAddStep location) acc nodes = acc := by
  induction nodes with
  | nil => intro acc; rfl
  | cons n ns ih =>
    intro acc
    rw [List.foldl_cons]
    have hstep : mull.mathAddStep location acc n = acc := by
      simp [mull.mathAddStep, mull.visitRangeWithLocation,
        locationInRange_of_not_fileID n.range location h]
    rw [hstep, ih acc]

/-- The math-sub traversal records nothing for a non-file location. -/
theorem mathSubFold_of_not_fileID (location : mull.CLoc)
    (h : location.isFileID = false) (nodes : List mull.CXXNode) :
    ∀ acc, List.foldl (mull.mathSubStep location) acc nodes = acc := by
  induction nodes with
  | nil => intro acc; rfl
  | cons n ns ih =>
    intro acc
    rw [List.foldl_cons]
    have hstep : mull.mathSubStep location acc n = acc := by
      simp [mull.mathSubStep, mull.visitRangeWithLocation,
        locationInRange_of_not_fileID n.range location h]
    rw [hstep, ih acc]

/-- C10: for a point of kind ConditionalsBoundary, MathAdd or MathSub whose
translated clang location is valid but not a file location (for example a
macro-expansion location), no candidate source range is considered to
contain the point, and isJunk returns true. -/
theorem c10_non_file_location_is_junk
    (astLoader : String → Option mull.ASTUnitModel)
    (point : mull.MutationPoint) (ast : mull.ASTUnitModel)
    (filePath : String) (line column : Nat) (file : String)
    (hloc : point.sourceLocation = .loc filePath line column)
    (hkind : point.mutatorKind = .ConditionalsBoundaryMutator ∨
      point.mutatorKind = .MathAddMutator ∨
      point.mutatorKind = .MathSubMutator)
    (hast : mull.findAST astLoader point = some ast)
    (hfile : mull.findFileEntry ast filePath = some file)
    (hvalid : (ast.getLocation file line column).valid = true)
    (hnotfile : (ast.getLocation file line column).isFileID = false) :
    (∀ n ∈ ast.nodes,
      mull.locationInRange n.range (ast.getLocation file line column)
        = false) ∧
    mull.isJunk astLoader point = some true := by
  constructor
  · intro n _
    exact locationInRange_of_not_fileID n.range _ hnotfile
  · unfold mull.isJunk
    rw [hloc]
    rcases hkind with hk | hk | hk <;> rw [hk] <;>
      simp [mull.isJunkBoundaryConditional, mull.isJunkMathAdd,
        mull.isJunkMathSub, hast, hfile, hvalid,
        mull.cbFoundMutant, mull.mathAddFoundMutant, mull.mathSubFoundMutant,
        cbFold_of_not_fileID _ hnotfile,
        mathAddFold_of_not_fileID _ hnotfile,
        mathSubFold_of_not_fileID _ hnotfile,
        mull.invalidRange, mull.CRange.isValid]

/-- Witness for C10 at the concrete macro-location input. -/
theorem c10_witness :
    mull.isJunk (fun _ => some mull.c10AST) mull.c10Point = some true :=
  (c10_non_file_location_is_junk (fun _ => some mull.c10AST) mull.c10Point
    mull.c10AST "main.c" 2 4 "main.c" rfl (Or.inr (Or.inl rfl)) rfl rfl rfl
    rfl).2

/-- C1 (code-bug evidence): at the concrete two-point input, the object set
handed to the runner for the second mutation point still contains the first
point's transient object ⟨1, 21⟩ beside the second point's ⟨1, 22⟩ and the
baseline ⟨0, 10⟩: ObjectFiles accumulates every mutant because push_back is
never undone. -/
theorem c1_second_run_object_set :
    (Mutang.mutangRun Mutang.sampleInput).map
        (fun r => Mutang.runObjectSets r.trace) =
      some [[⟨0, 10⟩, ⟨1, 21⟩], [⟨0, 10⟩, ⟨1, 21⟩, ⟨1, 22⟩]] := rfl

/-- C2 (code-bug evidence): at the concrete input the very first action of
the pipeline is already an applyMutation, and no runner invocation ever
receives the baseline object set — the baseline is never executed and no
baseline result is recorded. -/
theorem c2_no_baseline_run :
    (Mutang.mutangRun Mutang.sampleInput).map
        (fun r => r.trace.head?.map (fun e => Mutang.isApplyEvent e))
      = some (some true) ∧
    (Mutang.mutangRun Mutang.sampleInput).map
        (fun r => (Mutang.runObjectSets r.trace).filter
          (fun s => decide (s = Mutang.baselineObjectSet)))
      = some [] := ⟨rfl, rfl⟩

/-- C3 (code-bug evidence): the sample input has one discovered test, yet
the completed run holds no Test Result at all — Driver::Run returns void and
constructs none, contrary to its own comment block. -/
theorem c3_no_test_results :
    (Mutang.mutangRun Mutang.sampleInput).map (fun r => r.testResults.length)
      = some 0 ∧
    Mutang.sampleInput.tests.length = 1 := ⟨rfl, rfl⟩

/-- C4 counterexample: the claim fails on the code — Driver::Run consults no
junk detector and skips nothing.  A point with no debug-info location is
exactly what the junk detector classifies junk (first conjunct), yet at the
concrete input both mutation points are applied and run (two applies, two
runner invocations; nothing filtered). -/
theorem c4_counterexample :
    mull.isJunk (fun _ => none) mull.nullLocPoint = some true ∧
    (Mutang.mutangRun Mutang.sampleInput).map
        (fun r => Mutang.applyCount r.trace) = some 2 ∧
    (Mutang.mutangRun Mutang.sampleInput).map
        (fun r => Mutang.runCount r.trace) = some 2 := ⟨rfl, rfl, rfl⟩

/-- C9: after a completed run the cache holds exactly the baseline objects
compiled from the modules as loaded; the per-mutation transient objects are
never inserted, so the cache equals its state right after the loading loop. -/
theorem c9_cache_only_written_at_load {IR : Type} (input : Mutang.RunInput IR)
    (res : Mutang.RunResult IR) (modules : List (Nat × IR))
    (hm : Mutang.loadModules input.loader input.bitcodePaths = some modules)
    (h : Mutang.mutangRun input = some res) :
    res.cache = modules.map (fun e =>
      (e.1, Mutang.compile
        (fun m => (modules.lookup m).getD input.defaultIR) e.1)) := by
  unfold Mutang.mutangRun at h
  rw [hm] at h
  cases h
  rfl

/-- Witness for C9 at the concrete input. -/
theorem c9_witness :
    Mutang.sampleRun.cache = [(0, 10), (1, 20)].map (fun e =>
      (e.1, Mutang.compile
        (fun m => ([(0, 10), (1, 20)].lookup m).getD
          Mutang.sampleInput.defaultIR) e.1)) :=
  c9_cache_only_written_at_load Mutang.sampleInput Mutang.sampleRun
    [(0, 10), (1, 20)] rfl rfl

/-- Appending traces splits the apply count. -/
theorem applyCount_append {IR : Type} (t1 t2 : List (Mutang.Event IR)) :
    Mutang.applyCount (t1 ++ t2)
      = Mutang.applyCount t1 + Mutang.applyCount t2 := by
  simp [Mutang.applyCount, List.filter_append]

/-- Appending traces splits the run count. -/
theorem runCount_append {IR : Type} (t1 t2 : List (Mutang.Event IR)) :
    Mutang.runCount (t1 ++ t2)
      = Mutang.runCount t1 + Mutang.runCount t2 := by
  simp [Mutang.runCount, List.filter_append]

/-- One mutation-point iteration adds one apply and one run to the trace. -/
theorem runPoint_counts {IR : Type} (testId parent : Nat)
    (s : Mutang.LoopState IR) (p : Mutang.MutationPoint IR) :
    Mutang.applyCount (Mutang.runPoint testId parent s p).trace
        = Mutang.applyCount s.trace + 1 ∧
      Mutang.runCount (Mutang.runPoint testId parent s p).trace
        = Mutang.runCount s.trace + 1 := by
  constructor
  · show Mutang.applyCount (s.trace ++ _) = _
    rw [applyCount_append]
    rfl
  · show Mutang.runCount (s.trace ++ _) = _
    rw [runCount_append]
    rfl

/-- Folding the mutation points of a testee adds one apply and one run per
point. -/
theorem foldPoints_counts {IR : Type} (testId parent : Nat)
    (ps : List (Mutang.MutationPoint IR)) :
    ∀ s : Mutang.LoopState IR,
      Mutang.applyCount
          (List.foldl (Mutang.runPoint testId parent) s ps).trace
        = Mutang.applyCount s.trace + ps.length ∧
      Mutang.runCount
          (List.foldl (Mutang.runPoint testId parent) s ps).trace
        = Mutang.runCount s.trace + ps.length := by
  induction ps with
  | nil => intro s; simp
  | cons p ps ih =>
    intro s
    have h2 := ih (Mutang.runPoint testId parent s p)
    have h1 := runPoint_counts testId parent s p
    rw [List.foldl_cons]
    constructor
    · rw [h2.1, h1.1, List.length_cons]; omega
    · rw [h2.2, h1.2, List.length_cons]; omega

/-- One testee iteration adds one apply and one run per mutation point. -/
theorem runTestee_counts {IR : Type} (cache : List (Nat × Mutang.ObjectFile IR))
    (testId : Nat) (irs : Nat → IR) (trace : List (Mutang.Event IR))
    (e : Mutang.Testee IR) :
    Mutang.applyCount (Mutang.runTestee cache testId irs trace e).2
        = Mutang.applyCount trace + e.points.length ∧
      Mutang.runCount (Mutang.runTestee cache testId irs trace e).2
        = Mutang.runCount trace + e.points.length := by
  have h := foldPoints_counts testId e.parent e.points
    ⟨irs, Mutang.allButOne cache e.parent, trace⟩
  exact h

/-- Folding the testees of a test adds counts pointwise. -/
theorem foldTestees_counts {IR : Type}
    (cache : List (Nat × Mutang.ObjectFile IR)) (tid : Nat)
    (es : List (Mutang.Testee IR)) :
    ∀ s : (Nat → IR) × List (Mutang.Event IR),
      Mutang.applyCount
          (List.foldl (fun s2 e => Mutang.runTestee cache tid s2.1 s2.2 e)
            s es).2
        = Mutang.applyCount s.2 + (es.map (fun e => e.points.length)).sum ∧
      Mutang.runCount
          (List.foldl (fun s2 e => Mutang.runTestee cache tid s2.1 s2.2 e)
            s es).2
        = Mutang.runCount s.2 + (es.map (fun e => e.points.length)).sum := by
  induction es with
  | nil => intro s; simp
  | cons e es ih =>
    intro s
    rw [List.foldl_cons]
    have h1 := runTestee_counts cache tid s.1 s.2 e
    have h2 := ih (Mutang.runTestee cache tid s.1 s.2 e)
    constructor
    · rw [h2.1, h1.1, List.map_cons, List.sum_cons]; omega
    · rw [h2.2, h1.2, List.map_cons, List.sum_cons]; omega

/-- Folding all tests adds counts pointwise. -/
theorem foldTests_counts {IR : Type}
    (cache : List (Nat × Mutang.ObjectFile IR)) (ts : List (Mutang.Test IR)) :
    ∀ s : (Nat → IR) × List (Mutang.Event IR),
      Mutang.applyCount (List.foldl (Mutang.runOneTest cache) s ts).2
        = Mutang.applyCount s.2
          + (ts.map (fun t =>
              (t.testees.map (fun e => e.points.length)).sum)).sum ∧
      Mutang.runCount (List.foldl (Mutang.runOneTest cache) s ts).2
        = Mutang.runCount s.2
          + (ts.map (fun t =>
              (t.testees.map (fun e => e.points.length)).sum)).sum := by
  induction ts with
  | nil => intro s; simp
  | cons t ts ih =>
    intro s
    rw [List.foldl_cons]
    have h1 := foldTestees_counts cache t.id t.testees s
    have h2 := ih (Mutang.runOneTest cache s t)
    have hone : Mutang.runOneTest cache s t
        = List.foldl (fun s2 e => Mutang.runTestee cache t.id s2.1 s2.2 e)
          s t.testees := rfl
    constructor
    · rw [h2.1, hone, h1.1, List.map_cons, List.sum_cons]; omega
    · rw [h2.2, hone, h1.2, List.map_cons, List.sum_cons]; omega

/-- C4 amended: Driver::Run consults no junk detector and skips nothing —
every mutation point of every testee of every test is applied (and run)
exactly once. -/
theorem c4_all_points_processed {IR : Type} (input : Mutang.RunInput IR)
    (res : Mutang.RunResult IR) (h : Mutang.mutangRun input = some res) :
    Mutang.applyCount res.trace = Mutang.totalPoints input ∧
    Mutang.runCount res.trace = Mutang.totalPoints input := by
  unfold Mutang.mutangRun at h
  cases hm : Mutang.loadModules input.loader input.bitcodePaths with
  | none => rw [hm] at h; exact Option.noConfusion h
  | some modules =>
    rw [hm] at h
    cases h
    have hc := foldTests_counts
      (modules.map (fun e => (e.1, Mutang.compile
        (fun m => (modules.lookup m).getD input.defaultIR) e.1)))
      input.tests
      ((fun m => (modules.lookup m).getD input.defaultIR),
        ([] : List (Mutang.Event IR)))
    constructor
    · have := hc.1
      simp only [Mutang.applyCount, List.filter_nil, List.length_nil,
        Nat.zero_add] at this
      exact this
    · have := hc.2
      simp only [Mutang.runCount, List.filter_nil, List.length_nil,
        Nat.zero_add] at this
      exact this

/-- Witness for the amended C4 at the concrete input. -/
theorem c4_amended_witness :
    Mutang.applyCount Mutang.sampleRun.trace
        = Mutang.totalPoints Mutang.sampleInput ∧
      Mutang.runCount Mutang.sampleRun.trace
        = Mutang.totalPoints Mutang.sampleInput :=
  c4_all_points_processed Mutang.sampleInput Mutang.sampleRun rfl

/-- The inner fold only appends to the trace: running it from an arbitrary
initial trace prepends that trace to the run from the empty one. -/
theorem foldPoints_trace_append {IR : Type} (testId parent : Nat)
    (ps : List (Mutang.MutationPoint IR)) :
    ∀ s : Mutang.LoopState IR,
      (List.foldl (Mutang.runPoint testId parent) s ps).trace
        = s.trace ++ (List.foldl (Mutang.runPoint testId parent)
            ⟨s.irs, s.objectFiles, []⟩ ps).trace := by
  induction ps with
  | nil => intro s; simp
  | cons p ps ih =>
    intro s
    rw [List.foldl_cons, List.foldl_cons,
      ih (Mutang.runPoint testId parent s p),
      ih (Mutang.runPoint testId parent ⟨s.irs, s.objectFiles, []⟩ p)]
    rw [← List.append_assoc]
    rfl

/-- Starting from an empty trace, the inner fold produces one
apply/compile/revert/run block per mutation point, in list order. -/
theorem foldPoints_blocks {IR : Type} (testId parent : Nat)
    (ps : List (Mutang.MutationPoint IR)) :
    ∀ (irs : Nat → IR) (objs : List (Mutang.ObjectFile IR)),
      Mutang.blocksOf
          (List.foldl (Mutang.runPoint testId parent)
            ⟨irs, objs, []⟩ ps).trace = true ∧
      Mutang.applyIds
          (List.foldl (Mutang.runPoint testId parent)
            ⟨irs, objs, []⟩ ps).trace = ps.map (fun p => p.id) := by
  induction ps with
  | nil => intro irs objs; exact ⟨rfl, rfl⟩
  | cons p ps ih =>
    intro irs objs
    rw [List.foldl_cons]
    rw [foldPoints_trace_append testId parent ps
      (Mutang.runPoint testId parent ⟨irs, objs, []⟩ p)]
    have hB : (Mutang.runPoint testId parent ⟨irs, objs, []⟩ p).trace
        = [Mutang.Event.applyEvent p.id p.moduleId,
           Mutang.Event.compileEvent (Mutang.compile
             (Mutang.setIR irs p.moduleId
               (p.applyMutation (irs p.moduleId))) parent),
           Mutang.Event.revertEvent p.id p.moduleId,
           Mutang.Event.runEvent testId (objs ++ [Mutang.compile
             (Mutang.setIR irs p.moduleId
               (p.applyMutation (irs p.moduleId))) parent])] := rfl
    rw [hB]
    have hIH := ih ((Mutang.runPoint testId parent ⟨irs, objs, []⟩ p).irs)
      ((Mutang.runPoint testId parent ⟨irs, objs, []⟩ p).objectFiles)
    constructor
    · simp [Mutang.blocksOf, hIH.1]
    · have h2 := hIH.2
      simp only [Mutang.applyIds] at h2 ⊢
      simp [h2]

/-- Applying then reverting a round-tripping mutation point leaves the IR of
every module as it was before the apply. -/
theorem runPoint_restores_ir {IR : Type} (testId parent : Nat)
    (s : Mutang.LoopState IR) (p : Mutang.MutationPoint IR)
    (hrt : ∀ v : IR, p.revertMutation (p.applyMutation v) = v) :
    (Mutang.runPoint testId parent s p).irs = s.irs := by
  funext x
  show Mutang.setIR
      (Mutang.setIR s.irs p.moduleId (p.applyMutation (s.irs p.moduleId)))
      p.moduleId
      (p.revertMutation
        (Mutang.setIR s.irs p.moduleId
          (p.applyMutation (s.irs p.moduleId)) p.moduleId)) x
    = s.irs x
  by_cases hx : x = p.moduleId
  · subst hx; simp [Mutang.setIR, hrt]
  · simp [Mutang.setIR, hx]

/-- C8: within one testee the driver processes the mutation points in finder
order, each as an apply/compile/revert/run block — so revertMutation always
runs between an applyMutation and the next one — and, whenever apply and
revert compose to the identity, the IR state of every module after a point's
iteration equals its state before that point's apply. -/
theorem c8_points_ordered_and_isolated {IR : Type}
    (cache : List (Nat × Mutang.ObjectFile IR)) (testId : Nat)
    (irs : Nat → IR) (e : Mutang.Testee IR)
    (hrt : ∀ p ∈ e.points, ∀ v : IR,
      p.revertMutation (p.applyMutation v) = v) :
    Mutang.blocksOf (Mutang.runTestee cache testId irs [] e).2 = true ∧
    Mutang.applyIds (Mutang.runTestee cache testId irs [] e).2
      = e.points.map (fun p => p.id) ∧
    ∀ p ∈ e.points, ∀ s : Mutang.LoopState IR,
      (Mutang.runPoint testId e.parent s p).irs = s.irs := by
  have hb := foldPoints_blocks testId e.parent e.points irs
    (Mutang.allButOne cache e.parent)
  refine ⟨hb.1, hb.2, ?_⟩
  intro p hp s
  exact runPoint_restores_ir testId e.parent s p (hrt p hp)

/-- Witness for C8 at the concrete testee. -/
theorem c8_witness :
    Mutang.blocksOf
        (Mutang.runTestee Mutang.sampleCache 0 Mutang.sampleIrs []
          Mutang.sampleTestee).2 = true ∧
    Mutang.applyIds
        (Mutang.runTestee Mutang.sampleCache 0 Mutang.sampleIrs []
          Mutang.sampleTestee).2
      = Mutang.sampleTestee.points.map (fun p => p.id) ∧
    (Mutang.runPoint 0 Mutang.sampleTestee.parent
        ⟨Mutang.sampleIrs, [], []⟩ Mutang.samplePoint1).irs
      = Mutang.sampleIrs := by
  have hyp : ∀ p ∈ Mutang.sampleTestee.points, ∀ v : Nat,
      p.revertMutation (p.applyMutation v) = v := by
    intro p hp v
    simp [Mutang.sampleTestee] at hp
    rcases hp with h1 | h2
    · subst h1; simp [Mutang.samplePoint1]
    · subst h2; simp [Mutang.samplePoint2]
  have h := c8_points_ordered_and_isolated Mutang.sampleCache 0
    Mutang.sampleIrs Mutang.sampleTestee hyp
  exact ⟨h.1, h.2.1, h.2.2 Mutang.samplePoint1
    (by simp [Mutang.sampleTestee]) ⟨Mutang.sampleIrs, [], []⟩⟩

/-- For a well-formed range the unsigned length equals end minus begin. -/
theorem rangeLength_eq_rlen (r : mull.CRange)
    (h1 : r.rangeBegin.offset ≤ r.rangeEnd.offset)
    (h2 : r.rangeEnd.offset < 2 ^ 32) :
    mull.rangeLength r = mull.rlen r := by
  unfold mull.rangeLength mull.rlen
  have hp : (2 : Nat) ^ 32 = 4294967296 := by norm_num
  omega

/-- An invalid accumulated range always loses to the offered range. -/
theorem smallestSourceRange_invalid_left (r : mull.CRange) :
    mull.smallestSourceRange mull.invalidRange r = r := rfl

/-- On valid well-formed ranges, smallestSourceRange is the minimum-length
selection with ties to the first argument. -/
theorem smallestSourceRange_valid (a b : mull.CRange)
    (hav : a.isValid = true) (hbv : b.isValid = true)
    (ha1 : a.rangeBegin.offset ≤ a.rangeEnd.offset)
    (ha2 : a.rangeEnd.offset < 2 ^ 32)
    (hb1 : b.rangeBegin.offset ≤ b.rangeEnd.offset)
    (hb2 : b.rangeEnd.offset < 2 ^ 32) :
    mull.smallestSourceRange a b = mull.minStep a b := by
  unfold mull.smallestSourceRange mull.minStep
  rw [hav, hbv, rangeLength_eq_rlen a ha1 ha2, rangeLength_eq_rlen b hb1 hb2]
  simp only [Bool.not_true, Bool.false_eq_true, if_false]
  split_ifs with h1 h2
  · exact absurd h2 (by omega)
  · rfl
  · rfl
  · rfl

/-- The minimum-selecting fold returns its seed or a list element. -/
theorem minStep_foldl_mem (rs : List mull.CRange) :
    ∀ a : mull.CRange,
      List.foldl mull.minStep a rs = a ∨ List.foldl mull.minStep a rs ∈ rs := by
  induction rs with
  | nil => intro a; exact Or.inl rfl
  | cons b bs ih =>
    intro a
    rw [List.foldl_cons]
    rcases ih (mull.minStep a b) with h | h
    · rw [h]
      unfold mull.minStep
      by_cases hc : mull.rlen b < mull.rlen a
      · rw [if_pos hc]; exact Or.inr (List.mem_cons_self b bs)
      · rw [if_neg hc]; exact Or.inl rfl
    · exact Or.inr (List.mem_cons_of_mem b h)

/-- minFirst of a nonempty list is an element of the list. -/
theorem minFirst_mem (l : List mull.CRange) (h : l ≠ []) :
    mull.minFirst l ∈ l := by
  cases l with
  | nil => exact absurd rfl h
  | cons r rs =>
    have hgoal : mull.minFirst (r :: rs) = List.foldl mull.minStep r rs := rfl
    rw [hgoal]
    rcases minStep_foldl_mem rs r with h1 | h1
    · rw [h1]; exact List.mem_cons_self r rs
    · exact List.mem_cons_of_mem r h1

/-- The minimum-selecting fold is bounded by its seed and by every element. -/
theorem minStep_foldl_le (rs : List mull.CRange) :
    ∀ a : mull.CRange,
      mull.rlen (List.foldl mull.minStep a rs) ≤ mull.rlen a ∧
      ∀ r ∈ rs, mull.rlen (List.foldl mull.minStep a rs) ≤ mull.rlen r := by
  induction rs with
  | nil =>
    intro a
    refine ⟨Nat.le_refl _, ?_⟩
    intro r hr
    exact absurd hr (List.not_mem_nil r)
  | cons b bs ih =>
    intro a
    rw [List.foldl_cons]
    have h := ih (mull.minStep a b)
    have hba : mull.rlen (mull.minStep a b) ≤ mull.rlen a := by
      unfold mull.minStep
      by_cases hc : mull.rlen b < mull.rlen a
      · rw [if_pos hc]; omega
      · rw [if_neg hc]
    have hbb : mull.rlen (mull.minStep a b) ≤ mull.rlen b := by
      unfold mull.minStep
      by_cases hc : mull.rlen b < mull.rlen a
      · rw [if_pos hc]
      · rw [if_neg hc]; omega
    refine ⟨Nat.le_trans h.1 hba, ?_⟩
    intro r hr
    rcases List.mem_cons.mp hr with h1 | h1
    · subst h1; exact Nat.le_trans h.1 hbb
    · exact h.2 r h1

/-- minFirst of a list is no longer than any of its elements. -/
theorem minFirst_le (l : List mull.CRange) :
    ∀ r ∈ l, mull.rlen (mull.minFirst l) ≤ mull.rlen r := by
  cases l with
  | nil => intro r hr; exact absurd hr (List.not_mem_nil r)
  | cons a as =>
    intro r hr
    have hgoal : mull.minFirst (a :: as) = List.foldl mull.minStep a as := rfl
    rw [hgoal]
    rcases List.mem_cons.mp hr with h1 | h1
    · rw [h1]; exact (minStep_foldl_le as a).1
    · exact (minStep_foldl_le as a).2 r h1

/-- Folding one more valid well-formed matching range into the accumulated
minimum commutes with appending it to the matched list. -/
theorem smallest_minFirst_append (accM : List mull.CRange) (r : mull.CRange)
    (haccM : ∀ x ∈ accM, x.isValid = true ∧
      x.rangeBegin.offset ≤ x.rangeEnd.offset ∧ x.rangeEnd.offset < 2 ^ 32)
    (hr : r.isValid = true ∧
      r.rangeBegin.offset ≤ r.rangeEnd.offset ∧ r.rangeEnd.offset < 2 ^ 32) :
    mull.smallestSourceRange (mull.minFirst accM) r
      = mull.minFirst (accM ++ [r]) := by
  cases accM with
  | nil =>
    rw [show mull.minFirst ([] : List mull.CRange) = mull.invalidRange
      from rfl]
    rw [smallestSourceRange_invalid_left r]
    rfl
  | cons a as =>
    have hmem := minFirst_mem (a :: as) (by simp)
    have hm := haccM _ hmem
    rw [smallestSourceRange_valid (mull.minFirst (a :: as)) r hm.1 hr.1
      hm.2.1 hm.2.2 hr.2.1 hr.2.2]
    have h1 : mull.minFirst ((a :: as) ++ [r])
        = List.foldl mull.minStep a (as ++ [r]) := rfl
    rw [h1, List.foldl_append]
    have h2 : mull.minFirst (a :: as) = List.foldl mull.minStep a as := rfl
    rw [h2]
    rfl

/-- The search fold over well-formed ranges computes the first minimum over
the accumulated matches and the matches still to come. -/
theorem searchRanges_minFirst_general (location : mull.CLoc)
    (rs : List mull.CRange) :
    ∀ accM : List mull.CRange,
      (∀ x ∈ rs, x.isValid = true ∧
        x.rangeBegin.offset ≤ x.rangeEnd.offset ∧
        x.rangeEnd.offset < 2 ^ 32) →
      (∀ x ∈ accM, x.isValid = true ∧
        x.rangeBegin.offset ≤ x.rangeEnd.offset ∧
        x.rangeEnd.offset < 2 ^ 32) →
      List.foldl (mull.visitRangeWithLocation location)
          (mull.minFirst accM) rs
        = mull.minFirst
            (accM ++ rs.filter (fun x => mull.locationInRange x location)) := by
  induction rs with
  | nil => intro accM h1 h2; simp
  | cons r rs ih =>
    intro accM hrs haccM
    rw [List.foldl_cons]
    have hr := hrs r (List.mem_cons_self r rs)
    have hrs2 : ∀ x ∈ rs, x.isValid = true ∧
        x.rangeBegin.offset ≤ x.rangeEnd.offset ∧
        x.rangeEnd.offset < 2 ^ 32 :=
      fun x hx => hrs x (List.mem_cons_of_mem r hx)
    by_cases hin : mull.locationInRange r location = true
    · have hv : mull.visitRangeWithLocation location (mull.minFirst accM) r
          = mull.smallestSourceRange (mull.minFirst accM) r := by
        simp [mull.visitRangeWithLocation, hin]
      have haccM2 : ∀ x ∈ accM ++ [r], x.isValid = true ∧
          x.rangeBegin.offset ≤ x.rangeEnd.offset ∧
          x.rangeEnd.offset < 2 ^ 32 := by
        intro x hx
        rcases List.mem_append.mp hx with h | h
        · exact haccM x h
        · rw [List.mem_singleton.mp h]; exact hr
      rw [hv, smallest_minFirst_append accM r haccM hr,
        ih (accM ++ [r]) hrs2 haccM2]
      simp [List.filter_cons, hin]
    · have hfalse : mull.locationInRange r location = false :=
        Bool.not_eq_true _ ▸ eq_false_of_ne_true hin
      have hv : mull.visitRangeWithLocation location (mull.minFirst accM) r
          = mull.minFirst accM := by
        simp [mull.visitRangeWithLocation, hfalse]
      rw [hv, ih accM hrs2 haccM]
      simp [List.filter_cons, hfalse]

/-- The conditionals-boundary traversal is the generic search over the
relational nodes' ranges. -/
theorem cbFold_filter_ranges (location : mull.CLoc)
    (nodes : List mull.CXXNode) :
    ∀ acc : mull.CRange,
      List.foldl (mull.cbStep location) acc nodes
        = List.foldl (mull.visitRangeWithLocation location) acc
            ((nodes.filter
              (fun n => n.kind == mull.CXXNodeKind.relationalOp)).map
              (fun n => n.range)) := by
  induction nodes with
  | nil => intro acc; rfl
  | cons n ns ih =>
    intro acc
    rw [List.foldl_cons]
    by_cases hk : (n.kind == mull.CXXNodeKind.relationalOp) = true
    · have hstep : mull.cbStep location acc n
          = mull.visitRangeWithLocation location acc n.range := by
        simp [mull.cbStep, hk]
      rw [hstep, ih]
      simp [List.filter_cons, hk]
    · have hk2 : (n.kind == mull.CXXNodeKind.relationalOp) = false :=
        Bool.not_eq_true _ ▸ eq_false_of_ne_true hk
      have hstep : mull.cbStep location acc n = acc := by
        simp [mull.cbStep, hk2]
      rw [hstep, ih]
      simp [List.filter_cons, hk2]

/-- The math-add traversal is the generic search over the ranges of add,
add-assign and increment nodes. -/
theorem mathAddFold_filter_ranges (location : mull.CLoc)
    (nodes : List mull.CXXNode) :
    ∀ acc : mull.CRange,
      List.foldl (mull.mathAddStep location) acc nodes
        = List.foldl (mull.visitRangeWithLocation location) acc
            ((nodes.filter (fun n =>
              n.kind == mull.CXXNodeKind.addOp ||
              n.kind == mull.CXXNodeKind.addAssignOp ||
              n.kind == mull.CXXNodeKind.incrementOp)).map
              (fun n => n.range)) := by
  induction nodes with
  | nil => intro acc; rfl
  | cons n ns ih =>
    intro acc
    rw [List.foldl_cons]
    by_cases hk : (n.kind == mull.CXXNodeKind.addOp ||
        n.kind == mull.CXXNodeKind.addAssignOp ||
        n.kind == mull.CXXNodeKind.incrementOp) = true
    · have hstep : mull.mathAddStep location acc n
          = mull.visitRangeWithLocation location acc n.range := by
        simp only [mull.mathAddStep, hk, if_true]
      rw [hstep, ih]
      simp [List.filter_cons, hk]
    · have hk2 : (n.kind == mull.CXXNodeKind.addOp ||
          n.kind == mull.CXXNodeKind.addAssignOp ||
          n.kind == mull.CXXNodeKind.incrementOp) = false :=
        Bool.not_eq_true _ ▸ eq_false_of_ne_true hk
      have hstep : mull.mathAddStep location acc n = acc := by
        simp only [mull.mathAddStep, hk2, Bool.false_eq_true, if_false]
      rw [hstep, ih]
      simp [List.filter_cons, hk2]

/-- The math-sub traversal is the generic search over the ranges of sub,
sub-assign and decrement nodes. -/
theorem mathSubFold_filter_ranges (location : mull.CLoc)
    (nodes : List mull.CXXNode) :
    ∀ acc : mull.CRange,
      List.foldl (mull.mathSubStep location) acc nodes
        = List.foldl (mull.visitRangeWithLocation location) acc
            ((nodes.filter (fun n =>
              n.kind == mull.CXXNodeKind.subOp ||
              n.kind == mull.CXXNodeKind.subAssignOp ||
              n.kind == mull.CXXNodeKind.decrementOp)).map
              (fun n => n.range)) := by
  induction nodes with
  | nil => intro acc; rfl
  | cons n ns ih =>
    intro acc
    rw [List.foldl_cons]
    by_cases hk : (n.kind == mull.CXXNodeKind.subOp ||
        n.kind == mull.CXXNodeKind.subAssignOp ||
        n.kind == mull.CXXNodeKind.decrementOp) = true
    · have hstep : mull.mathSubStep location acc n
          = mull.visitRangeWithLocation location acc n.range := by
        simp only [mull.mathSubStep, hk, if_true]
      rw [hstep, ih]
      simp [List.filter_cons, hk]
    · have hk2 : (n.kind == mull.CXXNodeKind.subOp ||
          n.kind == mull.CXXNodeKind.subAssignOp ||
          n.kind == mull.CXXNodeKind.decrementOp) = false :=
        Bool.not_eq_true _ ▸ eq_false_of_ne_true hk
      have hstep : mull.mathSubStep location acc n = acc := by
        simp only [mull.mathSubStep, hk2, Bool.false_eq_true, if_false]
      rw [hstep, ih]
      simp [List.filter_cons, hk2]

/-- C7: over well-formed candidate ranges, the search visitor ends at the
first-encountered minimum-length range among those containing the point's
location (ties keep the earlier one), a match is found iff at least one
containing range exists — so the point is not junk iff one exists — and
each operator-specific traversal equals the generic search over exactly its
kind-filtered ranges. -/
theorem c7_smallest_matching_range (location : mull.CLoc)
    (ranges : List mull.CRange)
    (hwf : ∀ x ∈ ranges, x.isValid = true ∧
      x.rangeBegin.offset ≤ x.rangeEnd.offset ∧
      x.rangeEnd.offset < 2 ^ 32) :
    mull.searchRanges location ranges
      = mull.minFirst
          (ranges.filter (fun x => mull.locationInRange x location)) ∧
    (mull.foundRange location ranges = true ↔
      ranges.filter (fun x => mull.locationInRange x location) ≠ []) ∧
    (ranges.filter (fun x => mull.locationInRange x location) ≠ [] →
      mull.minFirst (ranges.filter (fun x => mull.locationInRange x location))
          ∈ ranges.filter (fun x => mull.locationInRange x location) ∧
      ∀ x ∈ ranges.filter (fun x => mull.locationInRange x location),
        mull.rlen (mull.minFirst
            (ranges.filter (fun x => mull.locationInRange x location)))
          ≤ mull.rlen x) ∧
    (∀ nodes : List mull.CXXNode,
      mull.cbFoundMutant location nodes
        = mull.foundRange location
            ((nodes.filter
              (fun n => n.kind == mull.CXXNodeKind.relationalOp)).map
              (fun n => n.range)) ∧
      mull.mathAddFoundMutant location nodes
        = mull.foundRange location
            ((nodes.filter (fun n =>
              n.kind == mull.CXXNodeKind.addOp ||
              n.kind == mull.CXXNodeKind.addAssignOp ||
              n.kind == mull.CXXNodeKind.incrementOp)).map
              (fun n => n.range)) ∧
      mull.mathSubFoundMutant location nodes
        = mull.foundRange location
            ((nodes.filter (fun n =>
              n.kind == mull.CXXNodeKind.subOp ||
              n.kind == mull.CXXNodeKind.subAssignOp ||
              n.kind == mull.CXXNodeKind.decrementOp)).map
              (fun n => n.range))) := by
  have hmain : mull.searchRanges location ranges
      = mull.minFirst
          (ranges.filter (fun x => mull.locationInRange x location)) := by
    have h := searchRanges_minFirst_general location ranges []
      hwf (fun x hx => absurd hx (List.not_mem_nil x))
    rw [List.nil_append] at h
    exact h
  refine ⟨hmain, ?_, ?_, ?_⟩
  · constructor
    · intro hf hnil
      have h1 : mull.foundRange location ranges
          = (mull.searchRanges location ranges).isValid := rfl
      rw [h1, hmain, hnil] at hf
      exact absurd hf (by decide)
    · intro hne
      have hmem := minFirst_mem _ hne
      have hx := hwf _ (List.mem_of_mem_filter hmem)
      have h1 : mull.foundRange location ranges
          = (mull.searchRanges location ranges).isValid := rfl
      rw [h1, hmain]
      exact hx.1
  · intro hne
    exact ⟨minFirst_mem _ hne, fun x hx => minFirst_le _ x hx⟩
  · intro nodes
    refine ⟨?_, ?_, ?_⟩
    · show (List.foldl (mull.cbStep location) mull.invalidRange nodes).isValid
        = _
      rw [cbFold_filter_ranges location nodes mull.invalidRange]
      rfl
    · show (List.foldl (mull.mathAddStep location)
          mull.invalidRange nodes).isValid = _
      rw [mathAddFold_filter_ranges location nodes mull.invalidRange]
      rfl
    · show (List.foldl (mull.mathSubStep location)
          mull.invalidRange nodes).isValid = _
      rw [mathSubFold_filter_ranges location nodes mull.invalidRange]
      rfl

/-- Witness for C7 at the concrete location and ranges: the shorter of the
two containing ranges is selected. -/
theorem c7_witness :
    mull.searchRanges mull.c7Location mull.c7Ranges
      = mull.minFirst (mull.c7Ranges.filter
          (fun x => mull.locationInRange x mull.c7Location)) :=
  (c7_smallest_matching_range mull.c7Location mull.c7Ranges (by decide)).1
